import Mathlib

/-!
Shallow embedding of `src/scatter_smooth.py` (function `plot_scatterdata`).

Numeric data is modelled with `ℚ`.  The claims under study concern numeric
(non-date) inputs, so the date-conversion of lines 95-97 specialises to the
identity; what remains of line 95 is the access `xs[0]`, which raises
`IndexError` on an empty list and is kept as the emptiness check.

The external numerical libraries (numpy `polyfit`/`polyval`, statsmodels
`lowess`, scipy `UnivariateSpline`) and the matplotlib renderer are external
collaborators: the embedding records exactly which fitting routine is invoked
with which arguments (`Fit`), takes the library's behaviour as a parameter
`fitLib`, and returns the coordinate sequences handed to the renderer
(`Output`) or the error that aborted the call (`PlotErr`).
-/

deriving instance DecidableEq for Except

namespace ScatterSmooth

/-- Ordering of coordinate pairs by their x component: the sort key
`key=lambda t: t[0]` of line 101. -/
def leFst (p q : ℚ × ℚ) : Prop := p.1 ≤ q.1

instance : DecidableRel leFst := fun p q => inferInstanceAs (Decidable (p.1 ≤ q.1))

instance : IsTotal (ℚ × ℚ) leFst := ⟨fun p q => le_total p.1 q.1⟩

instance : IsTrans (ℚ × ℚ) leFst := ⟨fun _ _ _ h h' => le_trans h h'⟩

/-- Line 100: `all(xs[i] <= xs[i+1] for i in range(len(xs)-1))`. -/
def nonDecrB : List ℚ → Bool
  | [] => true
  | [_] => true
  | x :: y :: r => decide (x ≤ y) && nonDecrB (y :: r)

/-- Line 106: `all(xs[i] < xs[i+1] for i in range(len(xs)-1))`. -/
def strictIncrB : List ℚ → Bool
  | [] => true
  | [_] => true
  | x :: y :: r => decide (x < y) && strictIncrB (y :: r)

/-- Line 101: `sorted(zip(xs, ys), key=lambda t: t[0])`.  Python's `sorted` is
a stable sort by the key; `insertionSort` with `leFst` is the stable sort by
the first component (stability is proved below as `sortPairs_keyFilter`). -/
def sortPairs (ps : List (ℚ × ℚ)) : List (ℚ × ℚ) := List.insertionSort leFst ps

/-- Lines 99-101: when x is not already non-decreasing, re-pair, stable-sort
by x and unzip.  (The `zip(*...)` unpacking failure on an empty pair list is
handled at the call site in `plot_scatterdata`.) -/
def normalizeXY (xs ys : List ℚ) : List ℚ × List ℚ :=
  if nonDecrB xs then (xs, ys)
  else ((sortPairs (xs.zip ys)).map Prod.fst, (sortPairs (xs.zip ys)).map Prod.snd)

/-- The sublist of pairs whose x equals `a` (grouping by exact x equality). -/
def keyFilter (a : ℚ) (ps : List (ℚ × ℚ)) : List (ℚ × ℚ) :=
  ps.filter (fun q => decide (q.1 = a))

/-- One step of the dictionary loop of lines 108-110:
`ys_per_x.setdefault(xs[i], []).append(ys[i])`.  The association list keeps
dict insertion order: a new key is appended at the end, an existing key has
the y appended to its list. -/
def addPt : List (ℚ × List ℚ) → ℚ × ℚ → List (ℚ × List ℚ)
  | [], p => [(p.1, [p.2])]
  | e :: rest, p =>
      if e.1 = p.1 then (e.1, e.2 ++ [p.2]) :: rest else e :: addPt rest p

/-- Lookup in the association list (the dict access `ys_per_x[x]`). -/
def entryOf (a : ℚ) : List (ℚ × List ℚ) → Option (List ℚ)
  | [] => none
  | e :: rest => if e.1 = a then some e.2 else entryOf a rest

/-- Lines 108-110: the dict `ys_per_x` after the whole loop. -/
def groupYs (ps : List (ℚ × ℚ)) : List (ℚ × List ℚ) := ps.foldl addPt []

/-- Lines 111-112: `sorted([(x, sum(ys_per_x[x]) / len(ys_per_x[x])) for x in
ys_per_x], key=lambda t: t[0])`. -/
def collapseDups (ps : List (ℚ × ℚ)) : List (ℚ × ℚ) :=
  sortPairs ((groupYs ps).map (fun e => (e.1, e.2.sum / (e.2.length : ℚ))))

/-- The errors with which the embedded call can abort.
`configurationError` models the unknown-smoother branch of lines 130-132:
`logging.error(f"Unknown smoother: ...")` followed by an early `return`, i.e.
the reported-error-and-abort behaviour, carrying the logged message.
`indexError` and `valueError` are the Python exceptions raised by `xs[0]` on
an empty list, by out-of-range `ys[i]`, and by unpacking an empty `zip`.
`fitError` wraps an error raised inside an external fitting library. -/
inductive PlotErr where
  | configurationError (msg : String)
  | indexError
  | valueError
  | fitError (msg : String)
  deriving DecidableEq

/-- An invocation of an external fitting library, with its arguments:
`lowess(ys, xs, frac, it, delta)` (line 115), `np.polyfit(xs, ys, deg)`
followed by `np.polyval(p, xs)` (lines 119-120 and 127-128), and
`UnivariateSpline(xs, ys, w, k, s)` applied to `xs` (lines 123-124). -/
inductive Fit where
  | lowessFit (frac : ℚ) (it : ℕ) (delta : ℚ) (xs ys : List ℚ)
  | polyfitFit (deg : ℕ) (xs ys : List ℚ)
  | splineFit (w : Option (List ℚ)) (k : ℕ) (s : ℚ) (xs ys : List ℚ)
  deriving DecidableEq

/-- The configuration parameters of `plot_scatterdata` that reach the
normalize/dedup/smooth pipeline (the remaining parameters are pass-through
styling for the renderer). -/
structure Config where
  smoother : Option String
  avoid_dups_for_smooth : Bool
  degree : ℕ
  low_frac : ℚ
  low_it : ℕ
  low_delta : ℚ
  spl_smooth : ℚ
  spl_weight : Option (List ℚ)
  deriving DecidableEq

/-- What a successful call hands to the renderer: the scatter coordinate
sequences of `ax.scatter(xs_scatter, ys_scatter)` (line 137) and, when a
smoother ran, the curve coordinates of `ax.plot(xs, ys_smooth)` (line 140). -/
structure Output where
  scatter_x : List ℚ
  scatter_y : List ℚ
  curve : Option (List ℚ × List ℚ)
  deriving DecidableEq

/-- Lines 106-112: the deduplication stage.  Collapse happens when x is not
strictly increasing and (`avoid_dups_for_smooth or smoother == 'splines'`).
The dict loop indexes `ys[i]` for every `i < len(xs)`, so a `ys` shorter than
`xs` raises `IndexError`; surplus `ys` entries are silently ignored (the
`zip` in `collapseDups` truncates accordingly). -/
def dedupXY (smoother : Option String) (avoid : Bool) (xs ys : List ℚ) :
    Except PlotErr (List ℚ × List ℚ) :=
  if strictIncrB xs = false then
    if avoid = true ∨ smoother = some "splines" then
      if ys.length < xs.length then .error .indexError
      else
        .ok ((collapseDups (xs.zip ys)).map Prod.fst,
             (collapseDups (xs.zip ys)).map Prod.snd)
    else .ok (xs, ys)
  else .ok (xs, ys)

/-- Lines 114-132: the smoother dispatch (`if`/`elif` chain on the selector
string).  A recognised selector invokes its fitting library on the fit
sequence; `None` requests no curve; any other string hits the
unknown-smoother branch (lines 130-132). -/
def smoothDispatch (cfg : Config) (xs ys : List ℚ)
    (fitLib : Fit → Except String (List ℚ)) : Except PlotErr (Option (List ℚ)) :=
  if cfg.smoother = some "lowess" then
    match fitLib (.lowessFit cfg.low_frac cfg.low_it cfg.low_delta xs ys) with
    | .ok r => .ok (some r)
    | .error m => .error (.fitError m)
  else if cfg.smoother = some "linear" then
    match fitLib (.polyfitFit 1 xs ys) with
    | .ok r => .ok (some r)
    | .error m => .error (.fitError m)
  else if cfg.smoother = some "splines" then
    match fitLib (.splineFit cfg.spl_weight cfg.degree cfg.spl_smooth xs ys) with
    | .ok r => .ok (some r)
    | .error m => .error (.fitError m)
  else if cfg.smoother = some "polyfit" then
    match fitLib (.polyfitFit cfg.degree xs ys) with
    | .ok r => .ok (some r)
    | .error m => .error (.fitError m)
  else
    match cfg.smoother with
    | some s => .error (.configurationError ("Unknown smoother: " ++ s))
    | none => .ok none

/-- The embedded `plot_scatterdata` (numeric x domain), parameterised by the
behaviour `fitLib` of the external fitting libraries.  Stage order follows
the source: emptiness access (line 95), sort (99-101), scatter sequence kept
aside (104-105), dedup (106-112), smoother dispatch (114-132), and only then
the renderer hand-off (137-141). -/
def plot_scatterdata (xs ys : List ℚ) (cfg : Config)
    (fitLib : Fit → Except String (List ℚ)) : Except PlotErr Output :=
  if xs = [] then .error .indexError
  else if nonDecrB xs = false ∧ xs.zip ys = [] then .error .valueError
  else
    match dedupXY cfg.smoother cfg.avoid_dups_for_smooth (normalizeXY xs ys).1
        (normalizeXY xs ys).2 with
    | .error e => .error e
    | .ok (xs2, ys2) =>
      match smoothDispatch cfg xs2 ys2 fitLib with
      | .error e => .error e
      | .ok curveYs =>
          .ok ⟨(normalizeXY xs ys).1, (normalizeXY xs ys).2, curveYs.map (fun c => (xs2, c))⟩

/-- A fixed library behaviour used to instantiate `fitLib` in concrete
evaluations: every fit succeeds and returns `[0, 0]`. -/
def fitLib0 : Fit → Except String (List ℚ) := fun _ => .ok [0, 0]

/-- A configuration with no smoother and the other parameters at the source's
default values. -/
def cfg0 : Config := ⟨none, true, 1, 66/100, 3, 0, 0, none⟩

/-- Configuration selecting the smoother string `'poly'` (the selector the
docstring and the spec document for polynomial regression), degree 2. -/
def cfgPoly : Config := ⟨some "poly", true, 2, 66/100, 3, 0, 0, none⟩

/-- Configuration selecting `'poly'` with degree 1. -/
def cfgPoly1 : Config := ⟨some "poly", true, 1, 66/100, 3, 0, 0, none⟩

/-- Configuration selecting the linear smoother. -/
def cfgLinear : Config := ⟨some "linear", true, 1, 66/100, 3, 0, 0, none⟩

/-- Configuration selecting the smoother string the code actually dispatches
on for polynomial regression (line 126), with degree 1. -/
def cfgPolyfit1 : Config := ⟨some "polyfit", true, 1, 66/100, 3, 0, 0, none⟩

/-- Configuration with the unrecognized smoother string `'bogus'`. -/
def cfgBogus : Config := ⟨some "bogus", true, 1, 66/100, 3, 0, 0, none⟩

/-- Configuration selecting lowess with `low_frac = 1.5`, outside `(0, 1]`. -/
def cfgLow15 : Config := ⟨some "lowess", true, 1, 3/2, 3, 0, 0, none⟩

end ScatterSmooth

namespace ScatterSmooth

/-! ### Properties of the stable sort of lines 99-101 -/

theorem sortPairs_perm (ps : List (ℚ × ℚ)) : List.Perm (sortPairs ps) ps :=
  List.perm_insertionSort leFst ps

theorem sortPairs_sorted (ps : List (ℚ × ℚ)) : List.Sorted leFst (sortPairs ps) :=
  List.sorted_insertionSort leFst ps

theorem keyFilter_nil (a : ℚ) : keyFilter a [] = [] := rfl

theorem keyFilter_cons (a : ℚ) (p : ℚ × ℚ) (l : List (ℚ × ℚ)) :
    keyFilter a (p :: l) = if p.1 = a then p :: keyFilter a l else keyFilter a l := by
  by_cases h : p.1 = a <;> simp [keyFilter, List.filter_cons, h]

theorem keyFilter_orderedInsert (a : ℚ) (p : ℚ × ℚ) (l : List (ℚ × ℚ)) :
    keyFilter a (List.orderedInsert leFst p l) =
      if p.1 = a then p :: keyFilter a l else keyFilter a l := by
  induction l with
  | nil => simp [List.orderedInsert, keyFilter_cons, keyFilter_nil]
  | cons b t ih =>
    by_cases hpb : leFst p b
    · rw [List.orderedInsert_of_le leFst t hpb, keyFilter_cons]
    · have hstep : List.orderedInsert leFst p (b :: t) = b :: List.orderedInsert leFst p t := by
        simp [List.orderedInsert, hpb]
      by_cases hpa : p.1 = a
      · have hba : b.1 ≠ a := fun hb => hpb (le_of_eq (hpa.trans hb.symm))
        rw [hstep, keyFilter_cons, if_neg hba, ih, if_pos hpa, keyFilter_cons, if_neg hba,
          if_pos hpa]
      · by_cases hba : b.1 = a
        · rw [hstep, keyFilter_cons, if_pos hba, ih, if_neg hpa, keyFilter_cons, if_pos hba,
            if_neg hpa]
        · rw [hstep, keyFilter_cons, if_neg hba, ih, if_neg hpa, keyFilter_cons, if_neg hba,
            if_neg hpa]

/-- Stability of the sort: the pairs sharing any given x keep their original
relative order (they form the same sublist before and after sorting). -/
theorem sortPairs_keyFilter (a : ℚ) (ps : List (ℚ × ℚ)) :
    keyFilter a (sortPairs ps) = keyFilter a ps := by
  induction ps with
  | nil => rfl
  | cons p t ih =>
    show keyFilter a (List.orderedInsert leFst p (sortPairs t)) = _
    rw [keyFilter_orderedInsert, ih, keyFilter_cons]

/-! ### The two monotonicity scans of lines 100 and 106 -/

theorem nonDecrB_iff_chain' (xs : List ℚ) : nonDecrB xs = true ↔ List.Chain' (· ≤ ·) xs := by
  induction xs with
  | nil => simp [nonDecrB]
  | cons x t ih =>
    cases t with
    | nil => simp [nonDecrB]
    | cons y r => simp [nonDecrB, List.chain'_cons, ih]

theorem strictIncrB_iff_chain' (xs : List ℚ) : strictIncrB xs = true ↔ List.Chain' (· < ·) xs := by
  induction xs with
  | nil => simp [strictIncrB]
  | cons x t ih =>
    cases t with
    | nil => simp [strictIncrB]
    | cons y r => simp [strictIncrB, List.chain'_cons, ih]

theorem nonDecrB_iff_pairwise (xs : List ℚ) :
    nonDecrB xs = true ↔ List.Pairwise (· ≤ ·) xs := by
  rw [nonDecrB_iff_chain', List.chain'_iff_pairwise]

theorem strictIncrB_iff_pairwise (xs : List ℚ) :
    strictIncrB xs = true ↔ List.Pairwise (· < ·) xs := by
  rw [strictIncrB_iff_chain', List.chain'_iff_pairwise]

/-- On a non-decreasing list, line 106's strictness scan fails exactly when
the list has duplicates. -/
theorem strictIncrB_eq_false_iff (xs : List ℚ) (hs : nonDecrB xs = true) :
    strictIncrB xs = false ↔ ¬ xs.Nodup := by
  have hle : List.Pairwise (· ≤ ·) xs := (nonDecrB_iff_pairwise xs).mp hs
  have hiff : strictIncrB xs = true ↔ xs.Nodup := by
    rw [strictIncrB_iff_pairwise]
    constructor
    · exact fun h => h.imp ne_of_lt
    · intro h
      exact (hle.and h).imp (fun hab => lt_of_le_of_ne hab.1 hab.2)
  rw [Bool.eq_false_iff, Ne, hiff]


/-! ### Properties of the grouping dictionary of lines 108-110 -/

theorem entryOf_addPt_self (acc : List (ℚ × List ℚ)) (p : ℚ × ℚ) :
    entryOf p.1 (addPt acc p) = some ((entryOf p.1 acc).getD [] ++ [p.2]) := by
  induction acc with
  | nil => simp [addPt, entryOf]
  | cons e rest ih =>
    by_cases h : e.1 = p.1
    · simp [addPt, entryOf, h]
    · simp [addPt, entryOf, h, ih]

theorem entryOf_addPt_ne (a : ℚ) (acc : List (ℚ × List ℚ)) (p : ℚ × ℚ) (h : a ≠ p.1) :
    entryOf a (addPt acc p) = entryOf a acc := by
  induction acc with
  | nil => simp [addPt, entryOf, Ne.symm h]
  | cons e rest ih =>
    by_cases he : e.1 = p.1
    · have hea : e.1 ≠ a := fun hc => h (hc.symm.trans he)
      simp [addPt, entryOf, he, hea, Ne.symm h]
    · simp only [addPt, if_neg he, entryOf]
      by_cases hea : e.1 = a
      · simp [hea]
      · simp [hea, ih]

theorem entryOf_foldl_some (ps : List (ℚ × ℚ)) :
    ∀ (acc : List (ℚ × List ℚ)) (a : ℚ) (l : List ℚ), entryOf a acc = some l →
      entryOf a (ps.foldl addPt acc) = some (l ++ (keyFilter a ps).map Prod.snd) := by
  induction ps with
  | nil => intro acc a l h; simpa [keyFilter_nil] using h
  | cons p t ih =>
    intro acc a l h
    rw [List.foldl_cons]
    by_cases hap : a = p.1
    · have h1 : entryOf a (addPt acc p) = some (l ++ [p.2]) := by
        rw [hap, entryOf_addPt_self acc p, ← hap, h]
        rfl
      have hk : keyFilter a (p :: t) = p :: keyFilter a t := by
        rw [keyFilter_cons, if_pos hap.symm]
      rw [ih (addPt acc p) a (l ++ [p.2]) h1, hk]
      simp
    · have h1 : entryOf a (addPt acc p) = some l := by
        rw [entryOf_addPt_ne a acc p hap, h]
      have hk : keyFilter a (p :: t) = keyFilter a t := by
        rw [keyFilter_cons, if_neg (fun hc => hap hc.symm)]
      rw [ih (addPt acc p) a l h1, hk]

theorem entryOf_foldl_none (ps : List (ℚ × ℚ)) :
    ∀ (acc : List (ℚ × List ℚ)) (a : ℚ), entryOf a acc = none →
      entryOf a (ps.foldl addPt acc) =
        if keyFilter a ps = [] then none else some ((keyFilter a ps).map Prod.snd) := by
  induction ps with
  | nil => intro acc a h; simpa [keyFilter_nil] using h
  | cons p t ih =>
    intro acc a h
    rw [List.foldl_cons]
    by_cases hap : a = p.1
    · have h1 : entryOf a (addPt acc p) = some [p.2] := by
        rw [hap, entryOf_addPt_self acc p, ← hap, h]
        rfl
      have hk : keyFilter a (p :: t) = p :: keyFilter a t := by
        rw [keyFilter_cons, if_pos hap.symm]
      rw [entryOf_foldl_some t (addPt acc p) a [p.2] h1, hk]
      simp
    · have h1 : entryOf a (addPt acc p) = none := by
        rw [entryOf_addPt_ne a acc p hap, h]
      have hk : keyFilter a (p :: t) = keyFilter a t := by
        rw [keyFilter_cons, if_neg (fun hc => hap hc.symm)]
      rw [ih (addPt acc p) a h1, hk]

/-- The dict of lines 108-110 maps each x to exactly the list of y-values of
that x, in input order (`setdefault(...).append` collects them left to
right). -/
theorem entryOf_groupYs (a : ℚ) (ps : List (ℚ × ℚ)) :
    entryOf a (groupYs ps) =
      if keyFilter a ps = [] then none else some ((keyFilter a ps).map Prod.snd) :=
  entryOf_foldl_none ps [] a rfl

theorem keys_addPt (acc : List (ℚ × List ℚ)) (p : ℚ × ℚ) :
    (addPt acc p).map Prod.fst =
      if p.1 ∈ acc.map Prod.fst then acc.map Prod.fst else acc.map Prod.fst ++ [p.1] := by
  induction acc with
  | nil => simp [addPt]
  | cons e rest ih =>
    by_cases he : e.1 = p.1
    · simp [addPt, he]
    · have hne : p.1 ≠ e.1 := fun hc => he hc.symm
      by_cases hmem : p.1 ∈ rest.map Prod.fst
      · simp [addPt, he, ih, hmem, hne]
      · simp [addPt, he, ih, hmem, hne]

theorem nodup_keys_addPt (acc : List (ℚ × List ℚ)) (p : ℚ × ℚ)
    (h : (acc.map Prod.fst).Nodup) : ((addPt acc p).map Prod.fst).Nodup := by
  rw [keys_addPt]
  by_cases hmem : p.1 ∈ acc.map Prod.fst
  · simpa [hmem] using h
  · simp [hmem, List.nodup_append, h]

theorem nodup_keys_foldl (ps : List (ℚ × ℚ)) :
    ∀ acc : List (ℚ × List ℚ), (acc.map Prod.fst).Nodup →
      ((ps.foldl addPt acc).map Prod.fst).Nodup := by
  induction ps with
  | nil => intro acc h; simpa using h
  | cons p t ih =>
    intro acc h
    rw [List.foldl_cons]
    exact ih (addPt acc p) (nodup_keys_addPt acc p h)

theorem nodup_keys_groupYs (ps : List (ℚ × ℚ)) : ((groupYs ps).map Prod.fst).Nodup :=
  nodup_keys_foldl ps [] (by simp)

theorem mem_keys_iff_entryOf (a : ℚ) (l : List (ℚ × List ℚ)) :
    a ∈ l.map Prod.fst ↔ entryOf a l ≠ none := by
  induction l with
  | nil => simp [entryOf]
  | cons e rest ih =>
    by_cases he : e.1 = a
    · simp [entryOf, he]
    · have hne : a ≠ e.1 := fun hc => he hc.symm
      simp [entryOf, he, hne, ih]

theorem entryOf_of_mem_nodup (a : ℚ) (v : List ℚ) (l : List (ℚ × List ℚ))
    (hnd : (l.map Prod.fst).Nodup) (hmem : (a, v) ∈ l) : entryOf a l = some v := by
  induction l with
  | nil => cases hmem
  | cons e rest ih =>
    rw [List.map_cons, List.nodup_cons] at hnd
    rcases List.mem_cons.mp hmem with heq | htl
    · rw [← heq]
      simp [entryOf]
    · have hmemk : a ∈ rest.map Prod.fst := List.mem_map.mpr ⟨(a, v), htl, rfl⟩
      have hea : e.1 ≠ a := fun hc => hnd.1 (hc ▸ hmemk)
      simp only [entryOf, if_neg hea]
      exact ih hnd.2 htl

theorem keyFilter_eq_nil_iff (a : ℚ) (ps : List (ℚ × ℚ)) :
    keyFilter a ps = [] ↔ a ∉ ps.map Prod.fst := by
  rw [keyFilter, List.filter_eq_nil_iff]
  constructor
  · intro h hmem
    rcases List.mem_map.mp hmem with ⟨q, hq, hqa⟩
    exact (by simpa using h q hq : ¬ q.1 = a) hqa
  · intro h q hq
    simp only [decide_eq_true_eq]
    intro hqa
    exact h (List.mem_map.mpr ⟨q, hq, hqa⟩)


/-! ### Properties of the collapse of lines 106-112 -/

theorem mem_collapseDups (p : ℚ × ℚ) (ps : List (ℚ × ℚ)) :
    p ∈ collapseDups ps ↔
      p ∈ (groupYs ps).map (fun e => (e.1, e.2.sum / (e.2.length : ℚ))) :=
  (sortPairs_perm _).mem_iff

theorem keys_collapseDups_perm (ps : List (ℚ × ℚ)) :
    List.Perm ((collapseDups ps).map Prod.fst) ((groupYs ps).map Prod.fst) := by
  have h := (sortPairs_perm ((groupYs ps).map (fun e => (e.1, e.2.sum / (e.2.length : ℚ))))).map
    Prod.fst
  simpa [List.map_map, Function.comp] using h

theorem nodup_keys_collapseDups (ps : List (ℚ × ℚ)) :
    ((collapseDups ps).map Prod.fst).Nodup :=
  ((keys_collapseDups_perm ps).nodup_iff).mpr (nodup_keys_groupYs ps)

/-- The fit sequence produced by a collapse has strictly increasing x. -/
theorem sorted_keys_collapseDups (ps : List (ℚ × ℚ)) :
    List.Pairwise (· < ·) ((collapseDups ps).map Prod.fst) := by
  have hle : List.Pairwise (· ≤ ·) ((collapseDups ps).map Prod.fst) :=
    List.pairwise_map.mpr (sortPairs_sorted _)
  have hnd : List.Pairwise (· ≠ ·) ((collapseDups ps).map Prod.fst) :=
    nodup_keys_collapseDups ps
  exact (hle.and hnd).imp (fun h => lt_of_le_of_ne h.1 h.2)

/-- The collapsed x-values are exactly the x-values of the input. -/
theorem mem_keys_collapseDups (a : ℚ) (ps : List (ℚ × ℚ)) :
    a ∈ (collapseDups ps).map Prod.fst ↔ a ∈ ps.map Prod.fst := by
  rw [(keys_collapseDups_perm ps).mem_iff, mem_keys_iff_entryOf, entryOf_groupYs]
  by_cases h : keyFilter a ps = []
  · simp [h, (keyFilter_eq_nil_iff a ps).mp h]
  · simp only [if_neg h]
    constructor
    · intro _
      by_contra hmem
      exact h ((keyFilter_eq_nil_iff a ps).mpr hmem)
    · intro _ hc
      cases hc

/-- Each collapsed point's y is the arithmetic mean of the y-values sharing
its x. -/
theorem snd_mem_collapseDups (p : ℚ × ℚ) (ps : List (ℚ × ℚ)) (hmem : p ∈ collapseDups ps) :
    p.2 = ((keyFilter p.1 ps).map Prod.snd).sum / ((keyFilter p.1 ps).length : ℚ) := by
  rcases List.mem_map.mp ((mem_collapseDups p ps).mp hmem) with ⟨e, he, hep⟩
  have hent : entryOf e.1 (groupYs ps) = some e.2 :=
    entryOf_of_mem_nodup e.1 e.2 (groupYs ps) (nodup_keys_groupYs ps) he
  rw [entryOf_groupYs] at hent
  by_cases hnil : keyFilter e.1 ps = []
  · rw [if_pos hnil] at hent
    cases hent
  · rw [if_neg hnil] at hent
    have he2 : e.2 = (keyFilter e.1 ps).map Prod.snd := by
      injection hent with h
      exact h.symm
    have h1 : p.1 = e.1 := by rw [← hep]
    have h2 : p.2 = e.2.sum / (e.2.length : ℚ) := by rw [← hep]
    rw [h2, he2, h1, List.length_map]

/-! ### Unzip-then-zip recombination -/

theorem zip_map_fst_snd_pairs (l : List (ℚ × ℚ)) :
    (l.map Prod.fst).zip (l.map Prod.snd) = l := by
  induction l with
  | nil => rfl
  | cons p t ih => simp [ih]


/-! ### Shape of the dispatch and of the whole pipeline -/

theorem smoothDispatch_none (cfg : Config) (xs ys : List ℚ)
    (fitLib : Fit → Except String (List ℚ)) (hsm : cfg.smoother = none) :
    smoothDispatch cfg xs ys fitLib = .ok none := by
  simp [smoothDispatch, hsm]

theorem smoothDispatch_ok_shape (cfg : Config) (xs ys : List ℚ)
    (fitLib : Fit → Except String (List ℚ)) (c : Option (List ℚ))
    (h : smoothDispatch cfg xs ys fitLib = .ok c) :
    (cfg.smoother = none → c = none) ∧ (cfg.smoother ≠ none → c.isSome) := by
  unfold smoothDispatch at h
  split_ifs at h with h1 h2 h3 h4
  · constructor
    · intro hn; rw [hn] at h1; cases h1
    · intro _
      revert h
      cases fitLib (.lowessFit cfg.low_frac cfg.low_it cfg.low_delta xs ys) <;> intro h
      · cases h
      · injection h with h'; rw [← h']; rfl
  · constructor
    · intro hn; rw [hn] at h2; cases h2
    · intro _
      revert h
      cases fitLib (.polyfitFit 1 xs ys) <;> intro h
      · cases h
      · injection h with h'; rw [← h']; rfl
  · constructor
    · intro hn; rw [hn] at h3; cases h3
    · intro _
      revert h
      cases fitLib (.splineFit cfg.spl_weight cfg.degree cfg.spl_smooth xs ys) <;> intro h
      · cases h
      · injection h with h'; rw [← h']; rfl
  · constructor
    · intro hn; rw [hn] at h4; cases h4
    · intro _
      revert h
      cases fitLib (.polyfitFit cfg.degree xs ys) <;> intro h
      · cases h
      · injection h with h'; rw [← h']; rfl
  · revert h
    rcases hsm : cfg.smoother with _ | s <;> intro h
    · injection h with h'
      exact ⟨fun _ => h'.symm, fun hc => absurd rfl hc⟩
    · cases h

theorem smoothDispatch_unknown (cfg : Config) (xs ys : List ℚ)
    (fitLib : Fit → Except String (List ℚ)) (s : String) (h1 : cfg.smoother = some s)
    (h2 : ¬ s = "lowess") (h3 : ¬ s = "linear") (h4 : ¬ s = "splines") (h5 : ¬ s = "polyfit") :
    smoothDispatch cfg xs ys fitLib = .error (.configurationError ("Unknown smoother: " ++ s)) := by
  simp [smoothDispatch, h1, h2, h3, h4, h5]

theorem dedupXY_ok_of_le (sm : Option String) (av : Bool) (xs ys : List ℚ)
    (h : ¬ ys.length < xs.length) : ∃ a b, dedupXY sm av xs ys = .ok (a, b) := by
  unfold dedupXY
  split_ifs <;> exact ⟨_, _, rfl⟩

theorem plot_ok_shape (xs ys : List ℚ) (cfg : Config)
    (fitLib : Fit → Except String (List ℚ)) (out : Output)
    (h : plot_scatterdata xs ys cfg fitLib = .ok out) :
    out.scatter_x = (normalizeXY xs ys).1 ∧ out.scatter_y = (normalizeXY xs ys).2 ∧
      (cfg.smoother = none → out.curve = none) ∧ (cfg.smoother ≠ none → out.curve.isSome) := by
  unfold plot_scatterdata at h
  split_ifs at h
  split at h
  · cases h
  case _ xs2 ys2 heq =>
    split at h
    · cases h
    case _ curveYs heq2 =>
      injection h with h'
      rw [← h']
      have hc := smoothDispatch_ok_shape cfg xs2 ys2 fitLib curveYs heq2
      refine ⟨rfl, rfl, ?_, ?_⟩
      · intro hn
        rw [hc.1 hn]
        rfl
      · intro hn
        rcases Option.isSome_iff_exists.mp (hc.2 hn) with ⟨r, hr⟩
        rw [hr]
        rfl


/-! ### Claim theorems -/

/-- C5: for every input whose x-sequence is not already non-decreasing, the
normalizer (lines 99-101) re-orders both x and y together by ascending x with
a stable sort: the output is the unzip of the sorted pair list, the sorted
pair list is ascending in x, is a permutation of the input pairs, and pairs
sharing an x keep their original relative order; an already non-decreasing
input is left unchanged; the scenario xs=[3,1,2], ys=[30,10,20] normalizes to
xs=[1,2,3], ys=[10,20,30]. -/
theorem normalizer_stable_sort (xs ys : List ℚ) :
    (nonDecrB xs = true → normalizeXY xs ys = (xs, ys))
  ∧ (nonDecrB xs = false →
      normalizeXY xs ys =
          ((sortPairs (xs.zip ys)).map Prod.fst, (sortPairs (xs.zip ys)).map Prod.snd)
    ∧ List.Pairwise (· ≤ ·) ((normalizeXY xs ys).1)
    ∧ List.Perm (sortPairs (xs.zip ys)) (xs.zip ys)
    ∧ ∀ a : ℚ, keyFilter a (sortPairs (xs.zip ys)) = keyFilter a (xs.zip ys))
  ∧ normalizeXY [3, 1, 2] [30, 10, 20] = ([1, 2, 3], [10, 20, 30]) := by
  refine ⟨fun h => by simp [normalizeXY, h], fun h => ?_, by decide⟩
  have hs : List.Pairwise leFst (sortPairs (xs.zip ys)) := sortPairs_sorted _
  refine ⟨by simp [normalizeXY, h], ?_, sortPairs_perm _, fun a => sortPairs_keyFilter a _⟩
  have h1 : (normalizeXY xs ys).1 = (sortPairs (xs.zip ys)).map Prod.fst := by
    simp [normalizeXY, h]
  rw [h1]
  exact List.pairwise_map.mpr hs

theorem normalizer_stable_sort_witness :
    normalizeXY [3, 1, 2] [30, 10, 20] = ([1, 2, 3], [10, 20, 30])
  ∧ List.Pairwise (· ≤ ·) ((normalizeXY [3, 1, 2] [30, 10, 20]).1) :=
  ⟨(normalizer_stable_sort [3, 1, 2] [30, 10, 20]).2.2,
   ((normalizer_stable_sort [3, 1, 2] [30, 10, 20]).2.1 (by decide)).2.1⟩

/-- C3: on a normalized sorted input of equal lengths, the dedup stage
(lines 106-112) collapses exactly when duplicate x-values exist and
(`avoid_dups_for_smooth` or the spline smoother is selected); the collapse
groups by exact x equality, replaces each group by the unweighted arithmetic
mean of its y-values, and yields the sorted (strictly increasing) unique
x-values; without collapse the fit sequence is the input unchanged; scenario:
xs=[1,1,2], ys=[10,20,30] with dedup enabled gives fit sequence
([1,2],[15,30]). -/
theorem dedup_fit_sequence (smoother : Option String) (avoid : Bool) (xs ys : List ℚ)
    (hsort : nonDecrB xs = true) (hlen : ys.length = xs.length) :
    (dedupXY smoother avoid xs ys =
       if ¬ xs.Nodup ∧ (avoid = true ∨ smoother = some "splines") then
         .ok ((collapseDups (xs.zip ys)).map Prod.fst,
              (collapseDups (xs.zip ys)).map Prod.snd)
       else .ok (xs, ys))
  ∧ List.Pairwise (· < ·) ((collapseDups (xs.zip ys)).map Prod.fst)
  ∧ (∀ a : ℚ, a ∈ (collapseDups (xs.zip ys)).map Prod.fst ↔ a ∈ xs)
  ∧ (∀ p ∈ collapseDups (xs.zip ys),
       p.2 = ((keyFilter p.1 (xs.zip ys)).map Prod.snd).sum /
         ((keyFilter p.1 (xs.zip ys)).length : ℚ))
  ∧ dedupXY none true [1, 1, 2] [10, 20, 30] = .ok ([1, 2], [15, 30]) := by
  have hiff := strictIncrB_eq_false_iff xs hsort
  refine ⟨?_, sorted_keys_collapseDups _, ?_, fun p hp => snd_mem_collapseDups p _ hp, ?_⟩
  · by_cases hstrict : strictIncrB xs = false
    · have hdup : ¬ xs.Nodup := hiff.mp hstrict
      rw [dedupXY, if_pos hstrict]
      by_cases hcond : avoid = true ∨ smoother = some "splines"
      · rw [if_pos hcond, if_neg (by omega : ¬ ys.length < xs.length),
          if_pos ⟨hdup, hcond⟩]
      · rw [if_neg hcond, if_neg (fun hc => hcond hc.2)]
    · have hnodup : xs.Nodup := by
        by_contra hnd
        exact hstrict (hiff.mpr hnd)
      rw [dedupXY, if_neg hstrict, if_neg (fun hc => hc.1 hnodup)]
  · intro a
    rw [mem_keys_collapseDups, List.map_fst_zip xs ys (by omega)]
  · norm_num [dedupXY, collapseDups, groupYs, addPt, sortPairs, List.insertionSort,
      List.orderedInsert, strictIncrB, leFst]

theorem dedup_fit_sequence_witness :
    dedupXY none true [1, 1, 2] [10, 20, 30] = .ok ([1, 2], [15, 30]) :=
  (dedup_fit_sequence none true [1, 1, 2] [10, 20, 30] (by decide) (by decide)).2.2.2.2

/-- C4: whenever the call succeeds, the coordinate sequences handed to the
scatter rendering (line 137) are exactly the normalized, sorted, pre-collapse
sequences of lines 99-105, duplicates retained, regardless of whether the
dedup collapse was performed for curve fitting. -/
theorem scatter_gets_raw_sequence (xs ys : List ℚ) (cfg : Config)
    (fitLib : Fit → Except String (List ℚ)) (out : Output)
    (h : plot_scatterdata xs ys cfg fitLib = .ok out) :
    out.scatter_x = (normalizeXY xs ys).1 ∧ out.scatter_y = (normalizeXY xs ys).2 :=
  ⟨(plot_ok_shape xs ys cfg fitLib out h).1, (plot_ok_shape xs ys cfg fitLib out h).2.1⟩

theorem scatter_gets_raw_sequence_witness :
    (Output.mk [1, 1, 2] [10, 20, 30] (some ([1, 2], [0, 0]))).scatter_x =
        (normalizeXY [1, 1, 2] [10, 20, 30]).1
  ∧ (Output.mk [1, 1, 2] [10, 20, 30] (some ([1, 2], [0, 0]))).scatter_y =
        (normalizeXY [1, 1, 2] [10, 20, 30]).2 :=
  scatter_gets_raw_sequence [1, 1, 2] [10, 20, 30]
    ⟨some "linear", true, 1, 66/100, 3, 0, 0, none⟩ fitLib0
    ⟨[1, 1, 2], [10, 20, 30], some ([1, 2], [0, 0])⟩ (by decide)

/-- C8: no partial plot is ever produced.  The result of the embedded call is
either an error, which carries no `Output` at all (the renderer is never
reached, nothing is drawn: every error arises at or before the smoothing
dispatch, which precedes the renderer hand-off in `plot_scatterdata`), or a
complete `Output` holding both the scatter sequences and — exactly when a
smoother was requested — the fitted curve. -/
theorem errors_abort_before_drawing (xs ys : List ℚ) (cfg : Config)
    (fitLib : Fit → Except String (List ℚ)) (out : Output)
    (h : plot_scatterdata xs ys cfg fitLib = .ok out) :
    (out.scatter_x = (normalizeXY xs ys).1 ∧ out.scatter_y = (normalizeXY xs ys).2)
  ∧ (cfg.smoother = none → out.curve = none)
  ∧ (cfg.smoother ≠ none → out.curve.isSome) := by
  have hs := plot_ok_shape xs ys cfg fitLib out h
  exact ⟨⟨hs.1, hs.2.1⟩, hs.2.2.1, hs.2.2.2⟩

theorem errors_abort_before_drawing_witness :
    ((Output.mk [1, 2] [10, 20] (some ([1, 2], [0, 0]))).scatter_x =
          (normalizeXY [1, 2] [10, 20]).1
      ∧ (Output.mk [1, 2] [10, 20] (some ([1, 2], [0, 0]))).scatter_y =
          (normalizeXY [1, 2] [10, 20]).2)
  ∧ ((⟨some "linear", true, 1, 66/100, 3, 0, 0, none⟩ : Config).smoother = none →
        (Output.mk [1, 2] [10, 20] (some ([1, 2], [0, 0]))).curve = none)
  ∧ ((⟨some "linear", true, 1, 66/100, 3, 0, 0, none⟩ : Config).smoother ≠ none →
        (Output.mk [1, 2] [10, 20] (some ([1, 2], [0, 0]))).curve.isSome) :=
  errors_abort_before_drawing [1, 2] [10, 20]
    ⟨some "linear", true, 1, 66/100, 3, 0, 0, none⟩ fitLib0
    ⟨[1, 2], [10, 20], some ([1, 2], [0, 0])⟩ (by decide)

/-- C10: for every non-empty input with equal-length xs and ys, the multiset
of (x, y) pairs handed to the scatter rendering equals the multiset of input
pairs: normalization sorts but never drops, duplicates or re-pairs a point,
even when a dedup collapse is performed for the fitting. -/
theorem scatter_multiset_invariant (xs ys : List ℚ) (cfg : Config)
    (fitLib : Fit → Except String (List ℚ)) (out : Output)
    (hne : xs ≠ []) (hlen : xs.length = ys.length)
    (h : plot_scatterdata xs ys cfg fitLib = .ok out) :
    (out.scatter_x.zip out.scatter_y : Multiset (ℚ × ℚ)) = (xs.zip ys : Multiset (ℚ × ℚ)) := by
  have hs := plot_ok_shape xs ys cfg fitLib out h
  rw [hs.1, hs.2.1, Multiset.coe_eq_coe]
  unfold normalizeXY
  by_cases hnd : nonDecrB xs = true
  · simp [hnd]
  · rw [Bool.not_eq_true] at hnd
    simp only [hnd, Bool.false_eq_true, if_false]
    rw [zip_map_fst_snd_pairs]
    exact sortPairs_perm _

theorem scatter_multiset_invariant_witness :
    ((([1, 2, 3] : List ℚ).zip ([10, 20, 30] : List ℚ) : Multiset (ℚ × ℚ)) =
      (([3, 1, 2] : List ℚ).zip ([30, 10, 20] : List ℚ) : Multiset (ℚ × ℚ))) :=
  scatter_multiset_invariant [3, 1, 2] [30, 10, 20] cfg0 fitLib0
    ⟨[1, 2, 3], [10, 20, 30], none⟩ (by decide) (by decide) (by decide)


/-! ### Helper lemmas for reaching the dispatch stage -/

theorem zip_ne_nil (xs ys : List ℚ) (hx : xs ≠ []) (hy : ys ≠ []) : xs.zip ys ≠ [] := by
  cases xs with
  | nil => exact absurd rfl hx
  | cons a t =>
    cases ys with
    | nil => exact absurd rfl hy
    | cons b u => simp

theorem normalizeXY_len_eq (xs ys : List ℚ) (hlen : xs.length = ys.length) :
    (normalizeXY xs ys).1.length = (normalizeXY xs ys).2.length := by
  unfold normalizeXY
  split_ifs
  · exact hlen
  · simp

theorem plot_reaches_dispatch (xs ys : List ℚ) (cfg : Config)
    (fitLib : Fit → Except String (List ℚ)) (hne : ¬ xs = [])
    (hzip : ¬ (nonDecrB xs = false ∧ xs.zip ys = [])) (a b : List ℚ)
    (hded : dedupXY cfg.smoother cfg.avoid_dups_for_smooth (normalizeXY xs ys).1
        (normalizeXY xs ys).2 = .ok (a, b)) :
    plot_scatterdata xs ys cfg fitLib =
      match smoothDispatch cfg a b fitLib with
      | .error e => .error e
      | .ok curveYs =>
          .ok ⟨(normalizeXY xs ys).1, (normalizeXY xs ys).2,
               curveYs.map (fun c => (a, c))⟩ := by
  unfold plot_scatterdata
  rw [if_neg hne, if_neg hzip, hded]


/-- C2: for every call whose smoother selector string is none of the strings
the dispatch recognises (lines 114-132 recognise exactly `'lowess'`,
`'linear'`, `'splines'`, `'polyfit'`), `plot_scatterdata` aborts with the
configuration error carrying the message `"Unknown smoother: "` followed by
the offending value (the embedded form of the `logging.error` plus early
`return` of lines 130-132), and no `Output` is handed to the renderer, so
neither scatter points nor a curve are drawn. -/
theorem unknown_smoother_reports_error (s : String) (xs ys : List ℚ) (cfg : Config)
    (fitLib : Fit → Except String (List ℚ)) (hsm : cfg.smoother = some s)
    (hunk : s ∉ (["lowess", "linear", "splines", "polyfit"] : List String))
    (hne : xs ≠ []) (hlen : xs.length = ys.length) :
    plot_scatterdata xs ys cfg fitLib =
      .error (.configurationError ("Unknown smoother: " ++ s)) := by
  have h2 : ¬ s = "lowess" := by
    intro hc
    exact hunk (by rw [hc]; decide)
  have h3 : ¬ s = "linear" := by
    intro hc
    exact hunk (by rw [hc]; decide)
  have h4 : ¬ s = "splines" := by
    intro hc
    exact hunk (by rw [hc]; decide)
  have h5 : ¬ s = "polyfit" := by
    intro hc
    exact hunk (by rw [hc]; decide)
  have hy : ys ≠ [] := by
    intro hc
    subst hc
    simp at hlen
    exact hne hlen
  have hzipcond : ¬ (nonDecrB xs = false ∧ xs.zip ys = []) := fun hc =>
    zip_ne_nil xs ys hne hy hc.2
  have hlen2 : ¬ ((normalizeXY xs ys).2).length < ((normalizeXY xs ys).1).length := by
    rw [normalizeXY_len_eq xs ys hlen]
    exact lt_irrefl _
  rcases dedupXY_ok_of_le cfg.smoother cfg.avoid_dups_for_smooth (normalizeXY xs ys).1
      (normalizeXY xs ys).2 hlen2 with ⟨a, b, hded⟩
  rw [plot_reaches_dispatch xs ys cfg fitLib hne hzipcond a b hded,
    smoothDispatch_unknown cfg a b fitLib s hsm h2 h3 h4 h5]

theorem unknown_smoother_reports_error_witness :
    plot_scatterdata [1, 2] [3, 4] cfgBogus fitLib0
      = .error (.configurationError ("Unknown smoother: " ++ "bogus")) :=
  unknown_smoother_reports_error "bogus" [1, 2] [3, 4] cfgBogus fitLib0 rfl
    (by decide) (by decide) (by decide)

/-- C1: contrary to the spec and to the function's own docstring, the
selector string `'poly'` is not dispatched to polynomial regression: the
dispatch of line 126 matches `'polyfit'`, so `'poly'` falls into the
unknown-smoother branch of lines 130-132 and the call aborts without fitting
or drawing anything.  Evaluation at a concrete input exhibits the bug. -/
theorem poly_selector_hits_unknown_branch :
    plot_scatterdata [1, 2, 3] [4, 5, 6] cfgPoly fitLib0
      = .error (.configurationError "Unknown smoother: poly") := by decide

/-- C9: with the selector `'poly'` (the name the spec uses) and degree 1 the
call produces no fitted curve at all — it aborts in the unknown-smoother
branch — while `'linear'` produces one, so the two do not produce identical
curves as claimed.  The intended equivalence does hold for the selector the
code actually recognises: the `'linear'` branch (lines 118-120) and the
`'polyfit'` branch with degree 1 (lines 126-128) invoke the identical
library computation `np.polyfit(xs, ys, 1)` / `np.polyval(p, xs)`, so their
dispatches are equal for every library behaviour. -/
theorem poly_degree1_vs_linear_divergence :
    plot_scatterdata [1, 2] [10, 20] cfgPoly1 fitLib0
      = .error (.configurationError "Unknown smoother: poly")
  ∧ plot_scatterdata [1, 2] [10, 20] cfgLinear fitLib0
      = .ok ⟨[1, 2], [10, 20], some ([1, 2], [0, 0])⟩
  ∧ (∀ (xs ys : List ℚ) (fitLib : Fit → Except String (List ℚ)),
      smoothDispatch cfgLinear xs ys fitLib = smoothDispatch cfgPolyfit1 xs ys fitLib) := by
  refine ⟨by decide, by decide, fun xs ys fitLib => rfl⟩

/-- C6 counterexample: the lengths 2 and 3 differ, yet the call succeeds and
draws a (truncated) scatter — no `ConfigurationError` (nor any error) is
reported, refuting the claim that mismatched lengths always fail. -/
theorem length_mismatch_not_rejected :
    ([3, 1] : List ℚ).length ≠ ([30, 10, 20] : List ℚ).length
  ∧ plot_scatterdata [3, 1] [30, 10, 20] cfg0 fitLib0 = .ok ⟨[1, 3], [10, 30], none⟩ :=
  ⟨by decide, by decide⟩

/-- C6 amended: an empty `xs` does make every call fail, but with the
`IndexError` of the `xs[0]` access of line 95, not a `ConfigurationError`;
and mismatched lengths are not validated at all: when `xs` is unsorted the
`zip` of line 101 silently truncates the pairs to the shorter length and the
call can succeed. -/
theorem empty_xs_fails_with_index_error :
    (∀ (ys : List ℚ) (cfg : Config) (fitLib : Fit → Except String (List ℚ)),
        plot_scatterdata [] ys cfg fitLib = .error .indexError)
  ∧ plot_scatterdata [3, 1] [30, 10, 20] cfg0 fitLib0 = .ok ⟨[1, 3], [10, 30], none⟩ :=
  ⟨fun ys cfg fitLib => rfl, by decide⟩

/-- C7 counterexample: `low_frac = 3/2` lies outside `(0, 1]`, yet the call
does not fail with a `ConfigurationError` — it proceeds into the lowess
fitting call and here (with a fit library that returns successfully)
completes the whole plot. -/
theorem lowess_frac_not_validated :
    ¬ (0 < cfgLow15.low_frac ∧ cfgLow15.low_frac ≤ 1)
  ∧ plot_scatterdata [1, 2] [10, 20] cfgLow15 fitLib0
      = .ok ⟨[1, 2], [10, 20], some ([1, 2], [0, 0])⟩ := by
  constructor
  · intro hc
    have h := hc.2
    simp only [cfgLow15] at h
    norm_num at h
  · decide

/-- C7 amended: `plot_scatterdata` performs no validation of `low_frac`
whatsoever: for every fraction (in particular 1.5) the lowess fitting call
is attempted with that fraction, and the outcome of the call is exactly the
outcome of the lowess library invocation — any out-of-range failure arises
inside the fitting stage, not as a prior `ConfigurationError`. -/
theorem lowess_frac_passed_through (frac delta ss : ℚ) (it deg : ℕ) (av : Bool)
    (w : Option (List ℚ)) (fitLib : Fit → Except String (List ℚ)) :
    plot_scatterdata [1, 2] [10, 20] ⟨some "lowess", av, deg, frac, it, delta, ss, w⟩ fitLib =
      match fitLib (.lowessFit frac it delta [1, 2] [10, 20]) with
      | .ok r => .ok ⟨[1, 2], [10, 20], some ([1, 2], r)⟩
      | .error m => .error (.fitError m) := by
  have hnorm : normalizeXY [1, 2] [10, 20] = ([1, 2], [10, 20]) := by decide
  have hded : dedupXY (some "lowess") av (normalizeXY [1, 2] [10, 20]).1
      (normalizeXY [1, 2] [10, 20]).2 = .ok ([1, 2], [10, 20]) := by
    rw [hnorm]
    unfold dedupXY
    rw [if_neg (by decide : ¬ strictIncrB [1, 2] = false)]
  rw [plot_reaches_dispatch [1, 2] [10, 20] ⟨some "lowess", av, deg, frac, it, delta, ss, w⟩
    fitLib (by decide) (by decide) [1, 2] [10, 20] hded]
  rcases hf : fitLib (.lowessFit frac it delta [1, 2] [10, 20]) with m | r
  · simp [smoothDispatch, hf, hnorm]
  · simp [smoothDispatch, hf, hnorm]

end ScatterSmooth
